import Mathlib

/-!
Verification of the timetable scraper (src/main.rs).

The program authenticates against a web portal, walks a chain of HTML
forms, and scrapes a fixed-position timetable table into
`CourseData = HashMap<String, HashMap<String, Vec<CourseTime>>>`.

Embedding choices:
* A Rust `HashMap<String, V>` is modelled by a canonical association list
  `List (String × V)` whose operations (`alookup`, `ainsert`, `amodify`,
  `containsKey`) mirror exactly the key-based observations the source makes
  (`get`, `insert`, `contains_key`, `get_mut`).  The list order of the
  representative is an artifact of the embedding: a Rust `HashMap` does not
  guarantee any iteration order, which `hashIterOrder` models explicitly.
* An HTML document is abstracted to exactly the data the source reads from
  it: its `form` elements in document order with their `action` attributes,
  and its `input` elements in document order with their `type`, `name` and
  `value` attributes (`Doc`, `Form`, `Input`).
* Fallible code (Rust `unwrap` panics and `Result` errors) is modelled with
  `Option`: `none` is the run that fails instead of returning a value.
* The timetable parser is embedded from the row data onward: the source
  first flattens the located table into `Vec<Vec<String>>` (trimmed cell
  texts) and then folds over those rows; `parse_timetable` here takes that
  `List (List String)` directly.
-/

/-- First-match lookup in an association list: the observation a Rust
`HashMap::get` answers. -/
def alookup {β : Type} : List (String × β) → String → Option β
  | [], _ => none
  | p :: ps, k => if p.1 = k then some p.2 else alookup ps k

/-- `HashMap::insert`: replace the value of an existing key, otherwise add
the binding (the canonical representative appends it at the end). -/
def ainsert {β : Type} : List (String × β) → String → β → List (String × β)
  | [], k, v => [(k, v)]
  | p :: ps, k, v => if p.1 = k then (k, v) :: ps else p :: ainsert ps k v

/-- In-place update of the value at a key, the effect of mutating through
`HashMap::get_mut`; no effect when the key is absent. -/
def amodify {β : Type} : List (String × β) → String → (β → β) → List (String × β)
  | [], _, _ => []
  | p :: ps, k, f => if p.1 = k then (p.1, f p.2) :: ps else p :: amodify ps k f

/-- `HashMap::contains_key`. -/
def containsKey {β : Type} (m : List (String × β)) (k : String) : Bool :=
  (alookup m k).isSome

/-- The keys of an association-list map are pairwise distinct (a Rust
`HashMap` guarantees this by construction). -/
def keysNodup {β : Type} (m : List (String × β)) : Prop :=
  (m.map Prod.fst).Nodup

/-- A Rust `HashMap` specifies no iteration order: observing its entries
(by iteration, including serde serialization and table printing) may yield
any permutation of them.  `l` is a possible observed order of the map whose
canonical entry list is `m` iff `l` is a permutation of `m`. -/
def hashIterOrder {β : Type} (m : List (String × β)) (l : List (String × β)) : Prop :=
  List.Perm l m

/-- One scheduled meeting (src/main.rs lines 34-38). -/
structure CourseTime where
  day_time : String
  duration : String
deriving DecidableEq

/-- The inner map of `CourseData`: delivery-format label to meeting list. -/
abbrev FormatMap := List (String × List CourseTime)

/-- `type CourseData = HashMap<String, HashMap<String, Vec<CourseTime>>>`
(src/main.rs line 40), as a canonical association list. -/
abbrev CourseData := List (String × FormatMap)

/-- The body of the loop at src/main.rs lines 159-169: create the nested
entries for `course` and `format` on first use, then push `ct` onto the
meeting list at `courses[course][format]`. -/
def appendTime (courses : CourseData) (course format : String) (ct : CourseTime) : CourseData :=
  let courses1 := if containsKey courses course then courses else ainsert courses course []
  amodify courses1 course (fun course_data =>
    let course_data1 :=
      if containsKey course_data format then course_data else ainsert course_data format []
    amodify course_data1 format (fun times => times ++ [ct]))

/-- The mutable loop state of `parse_timetable`: the accumulated map and
the carried current course and format labels (src/main.rs lines 140-143). -/
structure ScrapeState where
  courses : CourseData
  course : String
  format : String

/-- One iteration of the row loop at src/main.rs lines 145-170: rows with
fewer than 4 cells or an empty day/time or duration cell are skipped
without touching the state; otherwise non-empty cells 0 and 1 update the
carried labels and a `CourseTime` built from cells 2 and 3 is appended. -/
def scrapeRow (st : ScrapeState) (row : List String) : ScrapeState :=
  if row.length < 4 then st
  else if row.getD 2 "" = "" then st
  else if row.getD 3 "" = "" then st
  else
    let course := if row.getD 0 "" ≠ "" then row.getD 0 "" else st.course
    let format := if row.getD 1 "" ≠ "" then row.getD 1 "" else st.format
    ⟨appendTime st.courses course format ⟨row.getD 2 "", row.getD 3 ""⟩, course, format⟩

/-- `parse_timetable` (src/main.rs lines 129-173) from the flattened cell
data onward: skip the header row, fold the row loop from the empty map and
empty carried labels. -/
def parse_timetable (data : List (List String)) : CourseData :=
  ((data.drop 1).foldl scrapeRow ⟨[], "", ""⟩).courses

/-- Lookup through both nesting levels of a `CourseData`. -/
def lookup2 (m : CourseData) (c f : String) : Option (List CourseTime) :=
  (alookup m c).bind (fun fm => alookup fm f)

/-- `some` for a non-empty list, `none` for the empty one: relates the
presence of a nested entry to the existence of contributing rows. -/
def optOfList : List CourseTime → Option (List CourseTime)
  | [] => none
  | ct :: l => some (ct :: l)

/-- Reference description following the spec's words (sections 4.4 and the
round-trip property): scanning the data rows top to bottom with carried
labels `course`/`format`, the meetings that belong to the pair `(c, f)`,
in report order.  Used to state that `parse_timetable` preserves report
order in each meeting list. -/
def reportTimes (course format c f : String) : List (List String) → List CourseTime
  | [] => []
  | row :: rows =>
    if row.length < 4 then reportTimes course format c f rows
    else if row.getD 2 "" = "" then reportTimes course format c f rows
    else if row.getD 3 "" = "" then reportTimes course format c f rows
    else
      let course1 := if row.getD 0 "" ≠ "" then row.getD 0 "" else course
      let format1 := if row.getD 1 "" ≠ "" then row.getD 1 "" else format
      (if course1 = c ∧ format1 = f then [⟨row.getD 2 "", row.getD 3 ""⟩] else [])
        ++ reportTimes course1 format1 c f rows

/-- An `input` element as the source reads it: its `type`, `name` and
`value` attributes, each possibly absent. -/
structure Input where
  type : Option String
  name : Option String
  value : Option String
deriving DecidableEq

/-- A `form` element as the source reads it: its `action` attribute. -/
structure Form where
  action : Option String
deriving DecidableEq

/-- An HTML document abstracted to what the source observes: the `form`
elements in document order and the `input` elements in document order
(selectors search the whole document). -/
structure Doc where
  forms : List Form
  inputs : List Input
deriving DecidableEq

/-- The selector `input[type='submit'],input[type='hidden']`
(src/main.rs line 79). -/
def isSubmitHidden (i : Input) : Bool :=
  decide (i.type = some "submit") || decide (i.type = some "hidden")

/-- The selector `input[type='hidden']` (src/main.rs line 52). -/
def isHidden (i : Input) : Bool :=
  decide (i.type = some "hidden")

/-- The field-collection map of `get_form_fields` / `auth`. -/
abbrev FieldMap := List (String × String)

/-- The `for_each` insertion loop over selected inputs (src/main.rs lines
55-57 and 80-82): insert `name.unwrap() -> value.unwrap()` for each input
in document order; a missing `name` or `value` attribute is the `unwrap`
panic, modelled as `none`. -/
def insertInputs : FieldMap → List Input → Option FieldMap
  | m, [] => some m
  | m, i :: is =>
    match i.name, i.value with
    | some n, some v => insertInputs (ainsert m n v) is
    | _, _ => none

/-- `get_form_fields` (src/main.rs lines 73-85): the `action` attribute of
the last `form` element, and the name-to-value map of every submit or
hidden input of the whole document; any `unwrap` failure (no form, no
action, input missing name or value) is `none`. -/
def get_form_fields (doc : Doc) : Option (String × FieldMap) :=
  match doc.forms.getLast? with
  | none => none
  | some f =>
    match f.action with
    | none => none
    | some form_url =>
      match insertInputs [] (doc.inputs.filter isSubmitHidden) with
      | none => none
      | some form_data => some (form_url, form_data)

/-- Reference description following the spec's words for last-wins field
collection: the value of the last input in the list whose `name` is `k`
(later inputs take precedence). -/
def lastVal : List Input → String → Option String
  | [], _ => none
  | i :: is, k =>
    match lastVal is k with
    | some v => some v
    | none => if i.name = some k then i.value else none

/-- Rust `str::contains`: `pat` occurs as a contiguous substring of `s`. -/
def strContains (s pat : String) : Bool :=
  (List.range (s.data.length + 1)).any (fun i => pat.data.isPrefixOf (s.data.drop i))

/-- The fixed confirmation phrase of `auth` (src/main.rs line 64). -/
def authPhrase : String := "You have successfully authenticated"

/-- The seeded login fields of `auth` (src/main.rs lines 45-49): username
under `mli`, the password, and the literal submit value `Login`. -/
def seedFields (username password : String) : FieldMap :=
  ainsert (ainsert (ainsert [] "mli" username) "password" password) "dologin" "Login"

/-- `auth` (src/main.rs lines 42-65) from the fetched pages onward:
`landing` abstracts the login page the initial GET returned and
`login_resp_content` is the text the login POST returned.  The seeded
fields are overlaid with every hidden input of the landing page (an input
missing `name` or `value` is the `unwrap` panic, `none`); the run returns
the posted field map together with the containment check of the fixed
confirmation phrase. -/
def auth (username password : String) (landing : Doc) (login_resp_content : String) :
    Option (FieldMap × Bool) :=
  match insertInputs (seedFields username password) (landing.inputs.filter isHidden) with
  | none => none
  | some login_fields => some (login_fields, strContains login_resp_content authPhrase)

/-- Reference description following the spec's words (section 4.2): the
three seeded entries overlaid with every hidden field of the landing page;
a seeded entry survives unless a hidden field shares its name, in which
case the hidden value wins. -/
def seededOverlay (username password : String) (landing : Doc) (k : String) : Option String :=
  match lastVal (landing.inputs.filter isHidden) k with
  | some v => some v
  | none =>
    if k = "mli" then some username
    else if k = "password" then some password
    else if k = "dologin" then some "Login"
    else none

/-- `SessionsPageData` (src/main.rs lines 26-32). -/
structure SessionsPageData where
  sessions : List String
  form_url : String
  submit_map : FieldMap
  session_form_name : String
deriving DecidableEq

/-- The one mutation `get_course_details` performs on its `sessions_data`
argument (src/main.rs line 111): insert the stringified term id under the
session field name. -/
def get_course_details_update (id : Int) (sd : SessionsPageData) : SessionsPageData :=
  ⟨sd.sessions, sd.form_url, ainsert sd.submit_map sd.session_form_name (toString id),
    sd.session_form_name⟩

/-- The three data rows of the spec's round-trip property. -/
def specRows : List (List String) :=
  [["CS101", "Lecture", "Mon 10:00", "50min"],
   ["", "Lab", "Tue 14:00", "80min"],
   ["CS102", "", "Wed 9:00", "50min"]]

/-- The spec's round-trip table: a header row followed by `specRows`. -/
def specTable : List (List String) :=
  ["Course", "Format", "Day/Time", "Duration"] :: specRows

/-- A document with a decoy form, a trailing form with action `T`, and a
mix of text, hidden and submit inputs with a duplicated name. -/
def formDoc : Doc :=
  ⟨[⟨some "decoy"⟩, ⟨some "T"⟩],
   [⟨some "text", some "q", some "x"⟩,
    ⟨some "hidden", some "a", some "1"⟩,
    ⟨some "submit", some "b", some "2"⟩,
    ⟨some "hidden", some "a", some "9"⟩]⟩

/-- A landing page with two hidden inputs, one of which collides with the
seeded `password` field. -/
def loginDoc : Doc :=
  ⟨[⟨some "login"⟩],
   [⟨some "hidden", some "token", some "abc"⟩,
    ⟨some "hidden", some "password", some "HIJACK"⟩]⟩

/-- A concrete sessions page snapshot. -/
def sd0 : SessionsPageData :=
  ⟨["placeholder", "FW 2020"], "u", [("a", "1"), ("s", "old")], "s"⟩

/-! ## Association-map lemmas -/

theorem alookup_ainsert_self {β : Type} (m : List (String × β)) (k : String) (v : β) :
    alookup (ainsert m k v) k = some v := by
  induction m with
  | nil => simp [ainsert, alookup]
  | cons p ps ih =>
    by_cases h : p.1 = k
    · simp [ainsert, h, alookup]
    · simp [ainsert, h, alookup, ih]

theorem alookup_ainsert_of_ne {β : Type} (m : List (String × β)) (k k' : String) (v : β)
    (h : k' ≠ k) : alookup (ainsert m k v) k' = alookup m k' := by
  induction m with
  | nil => simp [ainsert, alookup, Ne.symm h]
  | cons p ps ih =>
    by_cases hp : p.1 = k
    · simp [ainsert, hp, alookup, Ne.symm h]
    · simp [ainsert, hp, alookup, ih]

theorem alookup_amodify_self {β : Type} (m : List (String × β)) (k : String) (F : β → β) :
    alookup (amodify m k F) k = (alookup m k).map F := by
  induction m with
  | nil => simp [amodify, alookup]
  | cons p ps ih =>
    by_cases hp : p.1 = k
    · simp [amodify, hp, alookup]
    · simp [amodify, hp, alookup, ih]

theorem alookup_amodify_of_ne {β : Type} (m : List (String × β)) (k k' : String) (F : β → β)
    (h : k' ≠ k) : alookup (amodify m k F) k' = alookup m k' := by
  induction m with
  | nil => simp [amodify]
  | cons p ps ih =>
    by_cases hp : p.1 = k
    · subst hp
      simp [amodify, alookup, Ne.symm h]
    · simp [amodify, hp, alookup, ih]

theorem alookup_eq_none {β : Type} (m : List (String × β)) (k : String) :
    alookup m k = none ↔ k ∉ m.map Prod.fst := by
  induction m with
  | nil => simp [alookup]
  | cons p ps ih =>
    by_cases hp : p.1 = k
    · rw [alookup, if_pos hp]
      simp [hp]
    · rw [alookup, if_neg hp, ih]
      simp only [List.map_cons, List.mem_cons]
      constructor
      · intro h hk
        rcases hk with hk | hk
        · exact hp hk.symm
        · exact h hk
      · intro h hk
        exact h (Or.inr hk)

theorem alookup_mem {β : Type} (m : List (String × β)) (k : String) (v : β)
    (h : alookup m k = some v) : (k, v) ∈ m := by
  induction m with
  | nil => simp [alookup] at h
  | cons p ps ih =>
    by_cases hp : p.1 = k
    · rw [alookup, if_pos hp] at h
      subst hp
      have hv : p.2 = v := Option.some.inj h
      subst hv
      exact List.mem_cons_self _ _
    · rw [alookup, if_neg hp] at h
      exact List.mem_cons_of_mem _ (ih h)

theorem containsKey_false {β : Type} (m : List (String × β)) (k : String)
    (h : ¬ containsKey m k = true) : alookup m k = none := by
  cases hm : alookup m k
  · rfl
  · exact absurd (by rw [containsKey, hm]; rfl) h

theorem alookup_ensure {β : Type} (m : List (String × β)) (k : String) (d : β) :
    alookup (if containsKey m k then m else ainsert m k d) k =
      some ((alookup m k).getD d) := by
  split
  · next hc =>
    rw [containsKey] at hc
    obtain ⟨v, hv⟩ := Option.isSome_iff_exists.mp hc
    simp [hv]
  · next hc =>
    rw [containsKey_false m k hc, alookup_ainsert_self]
    rfl

theorem alookup_ensure_of_ne {β : Type} (m : List (String × β)) (k k' : String) (d : β)
    (h : k' ≠ k) :
    alookup (if containsKey m k then m else ainsert m k d) k' = alookup m k' := by
  split
  · rfl
  · exact alookup_ainsert_of_ne _ _ _ _ h

theorem map_fst_amodify {β : Type} (m : List (String × β)) (k : String) (F : β → β) :
    (amodify m k F).map Prod.fst = m.map Prod.fst := by
  induction m with
  | nil => rfl
  | cons p ps ih =>
    by_cases hp : p.1 = k <;> simp [amodify, hp, ih]

theorem map_fst_ainsert {β : Type} (m : List (String × β)) (k : String) (v : β)
    (h : alookup m k = none) : (ainsert m k v).map Prod.fst = m.map Prod.fst ++ [k] := by
  induction m with
  | nil => rfl
  | cons p ps ih =>
    by_cases hp : p.1 = k
    · rw [alookup, if_pos hp] at h
      exact absurd h (by simp)
    · rw [alookup, if_neg hp] at h
      simp [ainsert, hp, ih h]

theorem mem_ainsert {β : Type} (m : List (String × β)) (k : String) (v : β) (q : String × β)
    (h : q ∈ ainsert m k v) : q ∈ m ∨ q = (k, v) := by
  induction m with
  | nil =>
    right
    simpa [ainsert] using h
  | cons p ps ih =>
    by_cases hp : p.1 = k
    · rw [ainsert, if_pos hp] at h
      rcases List.mem_cons.mp h with h | h
      · right; exact h
      · left; exact List.mem_cons_of_mem _ h
    · rw [ainsert, if_neg hp] at h
      rcases List.mem_cons.mp h with h | h
      · left; simp [h]
      · rcases ih h with h | h
        · left; exact List.mem_cons_of_mem _ h
        · right; exact h

theorem mem_amodify {β : Type} (m : List (String × β)) (k : String) (F : β → β)
    (q : String × β) (h : q ∈ amodify m k F) : q ∈ m ∨ ∃ p ∈ m, q = (p.1, F p.2) := by
  induction m with
  | nil => simp [amodify] at h
  | cons p ps ih =>
    by_cases hp : p.1 = k
    · rw [amodify, if_pos hp] at h
      rcases List.mem_cons.mp h with h | h
      · right; exact ⟨p, List.mem_cons_self p ps, h⟩
      · left; exact List.mem_cons_of_mem _ h
    · rw [amodify, if_neg hp] at h
      rcases List.mem_cons.mp h with h | h
      · left; simp [h]
      · rcases ih h with h | ⟨p1, hp1, hq⟩
        · left; exact List.mem_cons_of_mem _ h
        · right; exact ⟨p1, List.mem_cons_of_mem _ hp1, hq⟩

theorem mem_ensure {β : Type} (m : List (String × β)) (k : String) (d : β) (q : String × β)
    (h : q ∈ (if containsKey m k then m else ainsert m k d)) : q ∈ m ∨ q = (k, d) := by
  split at h
  · exact Or.inl h
  · exact mem_ainsert _ _ _ _ h

theorem keysNodup_ensure {β : Type} (m : List (String × β)) (k : String) (d : β)
    (h : keysNodup m) : keysNodup (if containsKey m k then m else ainsert m k d) := by
  split
  · exact h
  · next hc =>
    have hnone : alookup m k = none := containsKey_false m k hc
    unfold keysNodup
    rw [map_fst_ainsert _ _ _ hnone, List.nodup_append]
    refine ⟨h, List.nodup_singleton k, fun a ha hb => ?_⟩
    rw [List.mem_singleton] at hb
    subst hb
    exact (alookup_eq_none m a).mp hnone ha

/-- Claim C1: for every header row, parsing the table whose data rows are
the spec's round-trip rows yields exactly the mapping CS101 to
(Lecture to the Monday meeting, Lab to the Tuesday meeting) and CS102 to
(Lab to the Wednesday meeting): blank course and format labels inherit the
most recent non-blank label, and the inherited format carries across the
course change. -/
theorem C1_roundtrip (hdr : List String) :
    parse_timetable (hdr :: specRows) =
      [("CS101", [("Lecture", [⟨"Mon 10:00", "50min"⟩]), ("Lab", [⟨"Tue 14:00", "80min"⟩])]),
       ("CS102", [("Lab", [⟨"Wed 9:00", "50min"⟩])])] := by
  rfl

/-! ## Timetable lemmas -/

theorem lookup2_appendTime_self (m : CourseData) (c f : String) (ct : CourseTime) :
    lookup2 (appendTime m c f ct) c f = some ((lookup2 m c f).getD [] ++ [ct]) := by
  simp only [lookup2, appendTime]
  rw [alookup_amodify_self, alookup_ensure]
  simp only [Option.map_some', Option.some_bind]
  rw [alookup_amodify_self, alookup_ensure]
  cases hm : alookup m c with
  | none => simp [alookup]
  | some cd => simp

theorem lookup2_appendTime_other (m : CourseData) (c f c' f' : String) (ct : CourseTime)
    (h : ¬(c' = c ∧ f' = f)) :
    lookup2 (appendTime m c f ct) c' f' = lookup2 m c' f' := by
  by_cases hc : c' = c
  · subst hc
    have hf : f' ≠ f := fun hf => h ⟨rfl, hf⟩
    simp only [lookup2, appendTime]
    rw [alookup_amodify_self, alookup_ensure]
    simp only [Option.map_some', Option.some_bind]
    rw [alookup_amodify_of_ne _ _ _ _ hf, alookup_ensure_of_ne _ _ _ _ hf]
    cases hm : alookup m c' with
    | none => simp [alookup]
    | some cd => simp
  · simp only [lookup2, appendTime]
    rw [alookup_amodify_of_ne _ _ _ _ hc, alookup_ensure_of_ne _ _ _ _ hc]

theorem scrapeRow_dropped (st : ScrapeState) (row : List String)
    (h : row.length < 4 ∨ row.getD 2 "" = "" ∨ row.getD 3 "" = "") :
    scrapeRow st row = st := by
  unfold scrapeRow
  rcases h with h | h | h
  · rw [if_pos h]
  · rw [if_pos h, ite_self]
  · rw [if_pos h, ite_self, ite_self]

theorem scrapeRow_kept (st : ScrapeState) (row : List String)
    (h4 : ¬ row.length < 4) (h2 : ¬ row.getD 2 "" = "") (h3 : ¬ row.getD 3 "" = "") :
    scrapeRow st row =
      ⟨appendTime st.courses (if row.getD 0 "" ≠ "" then row.getD 0 "" else st.course)
          (if row.getD 1 "" ≠ "" then row.getD 1 "" else st.format)
          ⟨row.getD 2 "", row.getD 3 ""⟩,
        if row.getD 0 "" ≠ "" then row.getD 0 "" else st.course,
        if row.getD 1 "" ≠ "" then row.getD 1 "" else st.format⟩ := by
  unfold scrapeRow
  rw [if_neg h4, if_neg h2, if_neg h3]

theorem reportTimes_cons (course format c f : String) (row : List String)
    (rows : List (List String)) :
    reportTimes course format c f (row :: rows) =
      if row.length < 4 then reportTimes course format c f rows
      else if row.getD 2 "" = "" then reportTimes course format c f rows
      else if row.getD 3 "" = "" then reportTimes course format c f rows
      else
        (if (if row.getD 0 "" ≠ "" then row.getD 0 "" else course) = c ∧
            (if row.getD 1 "" ≠ "" then row.getD 1 "" else format) = f
         then [⟨row.getD 2 "", row.getD 3 ""⟩] else [])
          ++ reportTimes (if row.getD 0 "" ≠ "" then row.getD 0 "" else course)
              (if row.getD 1 "" ≠ "" then row.getD 1 "" else format) c f rows := rfl

theorem reportTimes_dropped (course format c f : String) (row : List String)
    (rows : List (List String))
    (h : row.length < 4 ∨ row.getD 2 "" = "" ∨ row.getD 3 "" = "") :
    reportTimes course format c f (row :: rows) = reportTimes course format c f rows := by
  rw [reportTimes_cons]
  rcases h with h | h | h
  · rw [if_pos h]
  · rw [if_pos h, ite_self]
  · rw [if_pos h, ite_self, ite_self]

theorem reportTimes_kept (course format c f : String) (row : List String)
    (rows : List (List String))
    (h4 : ¬ row.length < 4) (h2 : ¬ row.getD 2 "" = "") (h3 : ¬ row.getD 3 "" = "") :
    reportTimes course format c f (row :: rows) =
      (if (if row.getD 0 "" ≠ "" then row.getD 0 "" else course) = c ∧
          (if row.getD 1 "" ≠ "" then row.getD 1 "" else format) = f
       then [⟨row.getD 2 "", row.getD 3 ""⟩] else [])
        ++ reportTimes (if row.getD 0 "" ≠ "" then row.getD 0 "" else course)
            (if row.getD 1 "" ≠ "" then row.getD 1 "" else format) c f rows := by
  rw [reportTimes_cons, if_neg h4, if_neg h2, if_neg h3]

theorem scrapeRow_ne_nil (st : ScrapeState) (row : List String)
    (hne : ∀ c f, lookup2 st.courses c f ≠ some []) :
    ∀ c f, lookup2 (scrapeRow st row).courses c f ≠ some [] := by
  intro c f
  by_cases h4 : row.length < 4
  · rw [scrapeRow_dropped st row (Or.inl h4)]; exact hne c f
  by_cases h2 : row.getD 2 "" = ""
  · rw [scrapeRow_dropped st row (Or.inr (Or.inl h2))]; exact hne c f
  by_cases h3 : row.getD 3 "" = ""
  · rw [scrapeRow_dropped st row (Or.inr (Or.inr h3))]; exact hne c f
  rw [scrapeRow_kept st row h4 h2 h3]
  by_cases hcf : c = (if row.getD 0 "" ≠ "" then row.getD 0 "" else st.course) ∧
      f = (if row.getD 1 "" ≠ "" then row.getD 1 "" else st.format)
  · obtain ⟨hc, hf⟩ := hcf
    subst hc
    subst hf
    rw [lookup2_appendTime_self]
    intro hsome
    simp at hsome
  · rw [lookup2_appendTime_other _ _ _ _ _ _ hcf]
    exact hne c f

theorem scrape_fold_lookup (rows : List (List String)) :
    ∀ st : ScrapeState, (∀ c f, lookup2 st.courses c f ≠ some []) →
      ∀ c f, lookup2 ((rows.foldl scrapeRow st).courses) c f =
        optOfList ((lookup2 st.courses c f).getD [] ++
          reportTimes st.course st.format c f rows) := by
  induction rows with
  | nil =>
    intro st hne c f
    simp only [List.foldl_nil, reportTimes, List.append_nil]
    cases hm : lookup2 st.courses c f with
    | none => simp [optOfList]
    | some l =>
      cases l with
      | nil => exact absurd hm (hne c f)
      | cons a l => simp [optOfList]
  | cons row rows ih =>
    intro st hne c f
    rw [List.foldl_cons]
    by_cases h4 : row.length < 4
    · rw [scrapeRow_dropped st row (Or.inl h4),
        reportTimes_dropped _ _ _ _ _ _ (Or.inl h4)]
      exact ih st hne c f
    by_cases h2 : row.getD 2 "" = ""
    · rw [scrapeRow_dropped st row (Or.inr (Or.inl h2)),
        reportTimes_dropped _ _ _ _ _ _ (Or.inr (Or.inl h2))]
      exact ih st hne c f
    by_cases h3 : row.getD 3 "" = ""
    · rw [scrapeRow_dropped st row (Or.inr (Or.inr h3)),
        reportTimes_dropped _ _ _ _ _ _ (Or.inr (Or.inr h3))]
      exact ih st hne c f
    have hne' : ∀ c f, lookup2 (scrapeRow st row).courses c f ≠ some [] :=
      scrapeRow_ne_nil st row hne
    rw [scrapeRow_kept st row h4 h2 h3] at hne'
    rw [scrapeRow_kept st row h4 h2 h3]
    rw [ih _ hne' c f]
    rw [reportTimes_kept _ _ _ _ _ _ h4 h2 h3]
    by_cases hcf : (if row.getD 0 "" ≠ "" then row.getD 0 "" else st.course) = c ∧
        (if row.getD 1 "" ≠ "" then row.getD 1 "" else st.format) = f
    · obtain ⟨hc, hf⟩ := hcf
      subst hc
      subst hf
      rw [lookup2_appendTime_self]
      simp [List.append_assoc]
    · have hcf2 : ¬(c = (if row.getD 0 "" ≠ "" then row.getD 0 "" else st.course) ∧
          f = (if row.getD 1 "" ≠ "" then row.getD 1 "" else st.format)) :=
        fun hh => hcf ⟨hh.1.symm, hh.2.symm⟩
      rw [if_neg hcf]
      rw [lookup2_appendTime_other _ _ _ _ _ _ hcf2]
      simp

theorem parse_timetable_lookup (data : List (List String)) (c f : String) :
    lookup2 (parse_timetable data) c f = optOfList (reportTimes "" "" c f (data.drop 1)) := by
  unfold parse_timetable
  rw [scrape_fold_lookup (data.drop 1) ⟨[], "", ""⟩ (fun c f => by simp [lookup2, alookup]) c f]
  simp [lookup2, alookup]

theorem reportTimes_skip_spacers (course format c f : String)
    (pre rows : List (List String))
    (hpre : ∀ q ∈ pre, q.length < 4 ∨ q.getD 2 "" = "" ∨ q.getD 3 "" = "") :
    reportTimes course format c f (pre ++ rows) = reportTimes course format c f rows := by
  induction pre with
  | nil => rfl
  | cons q qs ih =>
    rw [List.cons_append, reportTimes_dropped _ _ _ _ _ _ (hpre q (List.mem_cons_self q qs))]
    exact ih (fun q1 hq1 => hpre q1 (List.mem_cons_of_mem _ hq1))

theorem optOfList_eq_some (l l' : List CourseTime) (h : optOfList l = some l') :
    l' = l ∧ l ≠ [] := by
  cases l with
  | nil => simp [optOfList] at h
  | cons a t =>
    rw [optOfList] at h
    exact ⟨(Option.some.inj h).symm, by simp⟩

theorem reportTimes_fields (rows : List (List String)) :
    ∀ course format c f, ∀ ct ∈ reportTimes course format c f rows,
      ct.day_time ≠ "" ∧ ct.duration ≠ "" := by
  induction rows with
  | nil =>
    intro course format c f ct hct
    simp [reportTimes] at hct
  | cons row rows ih =>
    intro course format c f ct hct
    by_cases h4 : row.length < 4
    · rw [reportTimes_dropped _ _ _ _ _ _ (Or.inl h4)] at hct
      exact ih _ _ _ _ ct hct
    by_cases h2 : row.getD 2 "" = ""
    · rw [reportTimes_dropped _ _ _ _ _ _ (Or.inr (Or.inl h2))] at hct
      exact ih _ _ _ _ ct hct
    by_cases h3 : row.getD 3 "" = ""
    · rw [reportTimes_dropped _ _ _ _ _ _ (Or.inr (Or.inr h3))] at hct
      exact ih _ _ _ _ ct hct
    rw [reportTimes_kept _ _ _ _ _ _ h4 h2 h3] at hct
    rw [List.mem_append] at hct
    rcases hct with hct | hct
    · have hct2 : ct = ⟨row.getD 2 "", row.getD 3 ""⟩ := by
        by_cases hcond : (if row.getD 0 "" ≠ "" then row.getD 0 "" else course) = c ∧
            (if row.getD 1 "" ≠ "" then row.getD 1 "" else format) = f
        · rw [if_pos hcond] at hct
          exact List.mem_singleton.mp hct
        · rw [if_neg hcond] at hct
          exact absurd hct (List.not_mem_nil ct)
      subst hct2
      exact ⟨h2, h3⟩
    · exact ih _ _ _ _ ct hct

/-- Claim C3: a row with fewer than 4 cells or with an empty day/time or
duration cell is dropped entirely: wherever it occurs, even with non-empty
labels in cells 0 and 1, the parse result of the whole table is the same
as if the row were absent (so it contributes no meeting and leaves the
carried course/format state untouched). -/
theorem C3_dropped_rows (hdr : List String) (pre post : List (List String))
    (r : List String)
    (h : r.length < 4 ∨ r.getD 2 "" = "" ∨ r.getD 3 "" = "") :
    parse_timetable (hdr :: (pre ++ r :: post)) = parse_timetable (hdr :: (pre ++ post)) := by
  unfold parse_timetable
  simp only [List.drop_succ_cons, List.drop_zero]
  rw [List.foldl_append, List.foldl_append, List.foldl_cons, scrapeRow_dropped _ _ h]

theorem C3_dropped_rows_witness :
    parse_timetable [[], ["CS200", "Lec", "Mon 9:00", "50min"], ["CS999", "Lab", "", "1hr"],
        ["", "", "Tue 9:00", "50min"]] =
      parse_timetable [[], ["CS200", "Lec", "Mon 9:00", "50min"],
        ["", "", "Tue 9:00", "50min"]] :=
  C3_dropped_rows [] [["CS200", "Lec", "Mon 9:00", "50min"]] [["", "", "Tue 9:00", "50min"]]
    ["CS999", "Lab", "", "1hr"] (Or.inr (Or.inl rfl))

/-- Claim C9: when the first kept data row arrives before any non-empty
course or format label has been seen (any earlier data rows are dropped
spacer rows, which never update the carried labels), its meeting is
recorded — not skipped, not a failure — under the keys taken from its own
cells 0 and 1, which are the empty-string course and/or format keys
whenever those cells are blank. -/
theorem C9_first_row (hdr : List String) (pre rest : List (List String)) (r : List String)
    (hpre : ∀ q ∈ pre, q.length < 4 ∨ q.getD 2 "" = "" ∨ q.getD 3 "" = "")
    (h4 : ¬ r.length < 4) (h2 : ¬ r.getD 2 "" = "") (h3 : ¬ r.getD 3 "" = "") :
    ((lookup2 (parse_timetable (hdr :: (pre ++ r :: rest))) (r.getD 0 "")
        (r.getD 1 "")).getD []).head? = some ⟨r.getD 2 "", r.getD 3 ""⟩ := by
  rw [parse_timetable_lookup]
  simp only [List.drop_succ_cons, List.drop_zero]
  rw [reportTimes_skip_spacers _ _ _ _ _ _ hpre]
  rw [reportTimes_kept _ _ _ _ _ _ h4 h2 h3]
  have hc1 : (if r.getD 0 "" ≠ "" then r.getD 0 "" else "") = r.getD 0 "" := by
    by_cases h0 : r.getD 0 "" = ""
    · rw [if_neg (not_not_intro h0)]
      exact h0.symm
    · rw [if_pos h0]
  have hf1 : (if r.getD 1 "" ≠ "" then r.getD 1 "" else "") = r.getD 1 "" := by
    by_cases h1 : r.getD 1 "" = ""
    · rw [if_neg (not_not_intro h1)]
      exact h1.symm
    · rw [if_pos h1]
  rw [hc1, hf1, if_pos ⟨rfl, rfl⟩]
  rw [List.singleton_append, optOfList]
  rfl

theorem C9_first_row_witness :
    ((lookup2 (parse_timetable [[], ["spacer"], ["", "", "Mon 8:00", "30min"]]) "" "").getD
        []).head? = some ⟨"Mon 8:00", "30min"⟩ :=
  C9_first_row [] [["spacer"]] [] ["", "", "Mon 8:00", "30min"] (by decide) (by decide)
    (by decide) (by decide)

/-- Claim C10: every nested entry of the parse result holds a non-empty
meeting list, and every recorded meeting has a non-empty day/time and a
non-empty duration (entries are created only when a kept row is appended,
and rows with an empty cell 2 or 3 were filtered out before). -/
theorem C10_nonempty (data : List (List String)) (c f : String) (l : List CourseTime)
    (h : lookup2 (parse_timetable data) c f = some l) :
    l ≠ [] ∧ ∀ ct ∈ l, ct.day_time ≠ "" ∧ ct.duration ≠ "" := by
  rw [parse_timetable_lookup] at h
  obtain ⟨hl, hne⟩ := optOfList_eq_some _ _ h
  subst hl
  exact ⟨hne, fun ct hct => reportTimes_fields _ _ _ _ _ ct hct⟩

theorem C10_nonempty_witness :
    ([⟨"Mon 10:00", "50min"⟩] : List CourseTime) ≠ [] ∧
      (⟨"Mon 10:00", "50min"⟩ : CourseTime).day_time ≠ "" ∧
      (⟨"Mon 10:00", "50min"⟩ : CourseTime).duration ≠ "" := by
  have h := C10_nonempty specTable "CS101" "Lecture" [⟨"Mon 10:00", "50min"⟩] (by rfl)
  exact ⟨h.1, h.2 ⟨"Mon 10:00", "50min"⟩ (List.mem_singleton.mpr rfl)⟩

theorem appendTime_keysNodup (m : CourseData) (c f : String) (ct : CourseTime)
    (h : keysNodup m) : keysNodup (appendTime m c f ct) := by
  have h1 := keysNodup_ensure m c ([] : FormatMap) h
  unfold keysNodup at *
  simp only [appendTime]
  rw [map_fst_amodify]
  exact h1

theorem appendTime_inner (m : CourseData) (c f : String) (ct : CourseTime)
    (h : ∀ q ∈ m, keysNodup q.2) : ∀ q ∈ appendTime m c f ct, keysNodup q.2 := by
  intro q hq
  simp only [appendTime] at hq
  have hens : ∀ q1 ∈ (if containsKey m c then m else ainsert m c ([] : FormatMap)),
      keysNodup q1.2 := by
    intro q1 hq1
    rcases mem_ensure _ _ _ _ hq1 with hq1 | hq1
    · exact h q1 hq1
    · subst hq1
      simp [keysNodup]
  rcases mem_amodify _ _ _ _ hq with hq | ⟨p, hp, hqp⟩
  · exact hens q hq
  · subst hqp
    have hp2 : keysNodup p.2 := hens p hp
    unfold keysNodup
    rw [map_fst_amodify]
    by_cases hf : containsKey p.2 f = true
    · rw [if_pos hf]
      exact hp2
    · rw [if_neg hf]
      have hnone : alookup p.2 f = none := containsKey_false p.2 f hf
      rw [map_fst_ainsert _ _ _ hnone, List.nodup_append]
      refine ⟨hp2, List.nodup_singleton f, fun a ha hb => ?_⟩
      rw [List.mem_singleton] at hb
      subst hb
      exact (alookup_eq_none p.2 a).mp hnone ha

theorem scrapeRow_goodShape (st : ScrapeState) (row : List String)
    (h1 : keysNodup st.courses) (h2 : ∀ q ∈ st.courses, keysNodup q.2) :
    keysNodup (scrapeRow st row).courses ∧
      ∀ q ∈ (scrapeRow st row).courses, keysNodup q.2 := by
  by_cases g4 : row.length < 4
  · rw [scrapeRow_dropped st row (Or.inl g4)]
    exact ⟨h1, h2⟩
  by_cases g2 : row.getD 2 "" = ""
  · rw [scrapeRow_dropped st row (Or.inr (Or.inl g2))]
    exact ⟨h1, h2⟩
  by_cases g3 : row.getD 3 "" = ""
  · rw [scrapeRow_dropped st row (Or.inr (Or.inr g3))]
    exact ⟨h1, h2⟩
  rw [scrapeRow_kept st row g4 g2 g3]
  exact ⟨appendTime_keysNodup _ _ _ _ h1, appendTime_inner _ _ _ _ h2⟩

theorem foldl_goodShape (rows : List (List String)) :
    ∀ st : ScrapeState, keysNodup st.courses → (∀ q ∈ st.courses, keysNodup q.2) →
      keysNodup ((rows.foldl scrapeRow st).courses) ∧
        ∀ q ∈ (rows.foldl scrapeRow st).courses, keysNodup q.2 := by
  induction rows with
  | nil =>
    intro st h1 h2
    exact ⟨h1, h2⟩
  | cons row rows ih =>
    intro st h1 h2
    rw [List.foldl_cons]
    obtain ⟨g1, g2⟩ := scrapeRow_goodShape st row h1 h2
    exact ih _ g1 g2

/-- Claim C8 (amended): in the `CourseData` returned by `parse_timetable`,
keys are unique at both nesting levels, and for every course label `c` and
format label `f` the meeting list under `(c, f)` is exactly the meetings
contributed by the kept rows assigned to `(c, f)`, in the report's
top-to-bottom order (and the entry exists exactly when some row
contributes).  The course and format maps themselves are Rust hash maps
with no specified iteration order, so no order of the format keys is
guaranteed. -/
theorem C8_order (data : List (List String)) :
    keysNodup (parse_timetable data) ∧
      (∀ q ∈ parse_timetable data, keysNodup q.2) ∧
      ∀ c f, lookup2 (parse_timetable data) c f =
        optOfList (reportTimes "" "" c f (data.drop 1)) := by
  refine ⟨?_, ?_, fun c f => parse_timetable_lookup data c f⟩
  · exact (foldl_goodShape (data.drop 1) ⟨[], "", ""⟩ List.nodup_nil (by simp)).1
  · exact (foldl_goodShape (data.drop 1) ⟨[], "", ""⟩ List.nodup_nil (by simp)).2

/-- Claim C8, as stated, is false on the code: `CourseData` is built from
Rust `HashMap`s, whose iteration order is arbitrary, so the format entries
under a course are not guaranteed to appear in first-appearance order.  On
the spec's own round-trip table, course CS101 first sees format Lecture
and then Lab, yet an iteration of the format map may also yield Lab before
Lecture. -/
theorem C8_counterexample :
    ¬ ∀ l : FormatMap,
        hashIterOrder ((alookup (parse_timetable specTable) "CS101").getD []) l →
          l.map Prod.fst = ["Lecture", "Lab"] := by
  intro h
  have h2 := h [("Lab", [⟨"Tue 14:00", "80min"⟩]), ("Lecture", [⟨"Mon 10:00", "50min"⟩])] ?_
  · simp at h2
  · have hm : (alookup (parse_timetable specTable) "CS101").getD [] =
        [("Lecture", [⟨"Mon 10:00", "50min"⟩]), ("Lab", [⟨"Tue 14:00", "80min"⟩])] := rfl
    rw [hashIterOrder, hm]
    exact List.Perm.swap _ _ _

/-! ## Form extraction and authentication lemmas -/

theorem insertInputs_char (l : List Input) :
    ∀ m : FieldMap, (∀ i ∈ l, i.name.isSome ∧ i.value.isSome) →
      ∃ m1, insertInputs m l = some m1 ∧
        ∀ k, alookup m1 k =
          match lastVal l k with
          | some v => some v
          | none => alookup m k := by
  induction l with
  | nil =>
    intro m _
    exact ⟨m, rfl, fun k => by simp [lastVal]⟩
  | cons i is ih =>
    intro m hwf
    obtain ⟨hn0, hv0⟩ := hwf i (List.mem_cons_self i is)
    obtain ⟨n, hn⟩ := Option.isSome_iff_exists.mp hn0
    obtain ⟨v, hv⟩ := Option.isSome_iff_exists.mp hv0
    obtain ⟨m1, hm1, hk⟩ := ih (ainsert m n v) (fun j hj => hwf j (List.mem_cons_of_mem _ hj))
    refine ⟨m1, ?_, ?_⟩
    · simp only [insertInputs, hn, hv]
      exact hm1
    · intro k
      rw [hk k]
      simp only [lastVal]
      cases hl : lastVal is k with
      | some w => simp
      | none =>
        simp only [hn, hv]
        by_cases hkn : n = k
        · subst hkn
          simp [alookup_ainsert_self]
        · simp [hkn, alookup_ainsert_of_ne _ _ _ _ (fun hh => hkn hh.symm)]

theorem insertInputs_fail (l : List Input) :
    ∀ m : FieldMap, (∃ i ∈ l, i.name = none ∨ i.value = none) → insertInputs m l = none := by
  induction l with
  | nil =>
    intro m h
    simp at h
  | cons i is ih =>
    intro m h
    rcases h with ⟨j, hj, hbad⟩
    rcases List.mem_cons.mp hj with hj | hj
    · subst hj
      rcases hbad with hb | hb
      · simp [insertInputs, hb]
      · cases hn : j.name
        · simp [insertInputs, hn]
        · simp [insertInputs, hn, hb]
    · cases hn : i.name
      · simp [insertInputs, hn]
      · cases hv : i.value
        · simp [insertInputs, hn, hv]
        · simp only [insertInputs, hn, hv]
          exact ih _ ⟨j, hj, hbad⟩

/-- Claim C2: on any document with at least one form whose last form
carries an action attribute (and whose submit/hidden inputs are all
well-formed, otherwise the extraction fails, see C6), `get_form_fields`
returns that action as the target URL together with exactly the
name-to-value pairs of the submit and hidden inputs found anywhere in the
document — inputs of other types contribute nothing, and a duplicated
name holds the value of the last such input in document order. -/
theorem C2_extract_form (doc : Doc) (a : String)
    (hform : (doc.forms.getLast?).bind Form.action = some a)
    (hwf : ∀ i ∈ doc.inputs, isSubmitHidden i = true → i.name.isSome ∧ i.value.isSome) :
    (get_form_fields doc).map Prod.fst = some a ∧
      ∀ k, (get_form_fields doc).bind (fun r => alookup r.2 k) =
        lastVal (doc.inputs.filter isSubmitHidden) k := by
  obtain ⟨fm, hfm⟩ : ∃ fm, doc.forms.getLast? = some fm := by
    cases hg : doc.forms.getLast?
    · rw [hg] at hform
      simp at hform
    · exact ⟨_, rfl⟩
  have ha : fm.action = some a := by
    rw [hfm] at hform
    simpa using hform
  obtain ⟨m1, hm1, hk⟩ := insertInputs_char (doc.inputs.filter isSubmitHidden) []
    (fun i hi => hwf i (List.mem_filter.mp hi).1 (List.mem_filter.mp hi).2)
  constructor
  · simp [get_form_fields, hfm, ha, hm1]
  · intro k
    simp only [get_form_fields, hfm, ha, hm1, Option.some_bind]
    rw [hk k]
    cases hl : lastVal (doc.inputs.filter isSubmitHidden) k
    · simp [alookup]
    · simp

theorem C2_extract_form_witness :
    (get_form_fields formDoc).map Prod.fst = some "T" ∧
      (get_form_fields formDoc).bind (fun r => alookup r.2 "a") = some "9" ∧
      (get_form_fields formDoc).bind (fun r => alookup r.2 "q") = none := by
  have h := C2_extract_form formDoc "T" (by rfl) (by decide)
  refine ⟨h.1, ?_, ?_⟩
  · rw [h.2 "a"]
    rfl
  · rw [h.2 "q"]
    rfl

/-- Claim C6: a document with no form element, or whose last form has no
action attribute, or containing a submit or hidden input that lacks a
name or a value attribute, makes `get_form_fields` fail (the source
`unwrap`s are the failure, modelled as `none`) instead of returning a
form snapshot. -/
theorem C6_malformed (doc : Doc)
    (h : doc.forms = [] ∨
        (∃ fm, doc.forms.getLast? = some fm ∧ fm.action = none) ∨
        ∃ i ∈ doc.inputs, isSubmitHidden i = true ∧ (i.name = none ∨ i.value = none)) :
    get_form_fields doc = none := by
  rcases h with h | ⟨fm, hfm, ha⟩ | ⟨i, hi, hish, hbad⟩
  · simp [get_form_fields, h]
  · simp [get_form_fields, hfm, ha]
  · have hins : insertInputs [] (doc.inputs.filter isSubmitHidden) = none :=
      insertInputs_fail _ _ ⟨i, List.mem_filter.mpr ⟨hi, hish⟩, hbad⟩
    unfold get_form_fields
    cases hg : doc.forms.getLast? with
    | none => rfl
    | some fm =>
      cases ha : fm.action with
      | none => simp [ha]
      | some url => simp [ha, hins]

theorem C6_malformed_witness : get_form_fields (Doc.mk [] []) = none :=
  C6_malformed (Doc.mk [] []) (Or.inl rfl)

theorem auth_run (username password : String) (landing : Doc) (resp : String)
    (hwf : ∀ i ∈ landing.inputs, isHidden i = true → i.name.isSome ∧ i.value.isSome) :
    ∃ m, auth username password landing resp = some (m, strContains resp authPhrase) := by
  obtain ⟨m1, hm1, _⟩ := insertInputs_char (landing.inputs.filter isHidden)
    (seedFields username password)
    (fun i hi => hwf i (List.mem_filter.mp hi).1 (List.mem_filter.mp hi).2)
  exact ⟨m1, by simp [auth, hm1]⟩

/-- Claim C4: in a run of `auth` that completes without transport error
(the landing page's hidden inputs being well-formed, otherwise the run
panics before any POST), the result is `true` exactly when the login
response text contains the fixed confirmation phrase, and it is the
legitimate value `false` — not an error — whenever the phrase is absent. -/
theorem C4_auth_result (username password : String) (landing : Doc) (resp : String)
    (hwf : ∀ i ∈ landing.inputs, isHidden i = true → i.name.isSome ∧ i.value.isSome) :
    ((auth username password landing resp).map Prod.snd = some true ↔
        strContains resp authPhrase = true) ∧
      (strContains resp authPhrase = false →
        (auth username password landing resp).map Prod.snd = some false) := by
  obtain ⟨m, hm⟩ := auth_run username password landing resp hwf
  rw [hm]
  constructor
  · simp
  · intro hfalse
    simp [hfalse]

theorem C4_auth_result_witness :
    (auth "u" "p" loginDoc "wrong credentials").map Prod.snd = some false :=
  (C4_auth_result "u" "p" loginDoc "wrong credentials" (by decide)).2 (by rfl)

theorem seedFields_alookup (username password k : String) :
    alookup (seedFields username password) k =
      if k = "mli" then some username
      else if k = "password" then some password
      else if k = "dologin" then some "Login" else none := by
  by_cases h1 : k = "mli"
  · subst h1
    rfl
  · by_cases h2 : k = "password"
    · subst h2
      rfl
    · by_cases h3 : k = "dologin"
      · subst h3
        rfl
      · rw [if_neg h1, if_neg h2, if_neg h3]
        show alookup [("mli", username), ("password", password), ("dologin", "Login")] k = none
        rw [alookup, if_neg (fun hh => h1 hh.symm), alookup, if_neg (fun hh => h2 hh.symm),
          alookup, if_neg (fun hh => h3 hh.symm), alookup]

/-- Claim C5: the field map `auth` POSTs to the login endpoint is, for
every key, the three seeded entries (the username under `mli`, the
password under `password`, the literal `Login` under `dologin`) overlaid
with every hidden input of the landing page: a seeded entry survives
unless a hidden field shares its name, in which case the hidden field's
value (the last one in document order) wins. -/
theorem C5_login_fields (username password : String) (landing : Doc) (resp : String)
    (hwf : ∀ i ∈ landing.inputs, isHidden i = true → i.name.isSome ∧ i.value.isSome)
    (k : String) :
    (auth username password landing resp).bind (fun r => alookup r.1 k) =
      seededOverlay username password landing k := by
  obtain ⟨m1, hm1, hk⟩ := insertInputs_char (landing.inputs.filter isHidden)
    (seedFields username password)
    (fun i hi => hwf i (List.mem_filter.mp hi).1 (List.mem_filter.mp hi).2)
  simp only [auth, hm1, Option.some_bind]
  rw [hk k]
  unfold seededOverlay
  cases hl : lastVal (landing.inputs.filter isHidden) k with
  | some w => simp
  | none =>
    simp only []
    exact seedFields_alookup username password k

theorem C5_login_fields_witness :
    (auth "u" "p" loginDoc "r").bind (fun r => alookup r.1 "password") = some "HIJACK" ∧
      (auth "u" "p" loginDoc "r").bind (fun r => alookup r.1 "mli") = some "u" ∧
      (auth "u" "p" loginDoc "r").bind (fun r => alookup r.1 "dologin") = some "Login" := by
  refine ⟨?_, ?_, ?_⟩
  · rw [C5_login_fields "u" "p" loginDoc "r" (by decide) "password"]
    rfl
  · rw [C5_login_fields "u" "p" loginDoc "r" (by decide) "mli"]
    rfl
  · rw [C5_login_fields "u" "p" loginDoc "r" (by decide) "dologin"]
    rfl

/-- Claim C7: updating the sessions snapshot with a chosen term id changes
only the submit-fields entry at the session field name, setting it to the
stringified id; the sessions list, the form URL, the session field name
and every other submit-field entry are unchanged. -/
theorem C7_update_frame (id : Int) (sd : SessionsPageData) :
    (get_course_details_update id sd).sessions = sd.sessions ∧
      (get_course_details_update id sd).form_url = sd.form_url ∧
      (get_course_details_update id sd).session_form_name = sd.session_form_name ∧
      alookup (get_course_details_update id sd).submit_map sd.session_form_name =
        some (toString id) ∧
      ∀ k, k ≠ sd.session_form_name →
        alookup (get_course_details_update id sd).submit_map k = alookup sd.submit_map k := by
  refine ⟨rfl, rfl, rfl, ?_, ?_⟩
  · exact alookup_ainsert_self _ _ _
  · intro k hk
    exact alookup_ainsert_of_ne _ _ _ _ hk
